import Mathlib

/-!
Shallow embedding of the calconsteroids expression calculator.

The repository contains two parallel designs:
* an enum-based design (`src/value.rs`, `src/expression.rs`, `src/parse.rs`):
  `Value` is a closed tagged union over `i128` rationals, and `Expression` is a
  closed tagged union of expression nodes; this is the design wired into the
  program's entry point;
* a trait-object design (`src/value/rational.rs`, `src/value/undefined.rs`,
  `src/expression/*.rs`): `RationalValue` carries an explicit `Sign` and
  `BigUint` magnitudes, dispatched through a `Value` trait.

Both are embedded below.  `i128` values are modelled as unbounded `Int`
(the spec treats them as arbitrary-precision integers; no claim concerns
overflow), `BigUint` as `Nat`.  Rust's truncating integer division `/` on
`i128` is modelled by `Int.tdiv`; every division performed by the embedded
code divides by an exact divisor (a gcd of the operands, or a denominator
dividing an lcm), where every division convention agrees.  Rust division by
zero panics; those paths require a zero denominator and are excluded by the
hypotheses of the theorems that could otherwise reach them.
-/

/-! ### Data model: the enum design (`src/value.rs`, `src/expression.rs`) -/

mutual

/-- The `Value` enum of `src/value.rs`: `Rational(i128, i128)`,
`Expression(Box<Expression>)`, `Undefined`. -/
inductive Value where
  | Rational (numerator denominator : Int)
  | ExpressionV (e : Expression)
  | Undefined

/-- The `Expression` enum of `src/expression.rs`. -/
inductive Expression where
  | Value (v : Value)
  | Variable (name : String)
  | Addition (a b : Expression)
  | Subtraction (a b : Expression)
  | Multiplication (a b : Expression)
  | Division (a b : Expression)
  | Negation (e : Expression)
  | Factorial (e : Expression)
  | Equals (a b : Expression)

end

/-- The `ValueError` enum of `src/value.rs`. -/
inductive ValueError where
  | BadVariant (v : Value)
  | BadValue (v : Value)

/-- `num::integer::gcd` on `i128`: the non-negative greatest common divisor. -/
def gcd_i128 (a b : Int) : Int := (Int.gcd a b : Int)

/-- `num::integer::lcm` on `i128`: the non-negative least common multiple. -/
def lcm_i128 (a b : Int) : Int := (Int.lcm a b : Int)

/-- `simplify_rational` of `src/value.rs`: divide numerator and denominator by
their gcd; a non-`Rational` argument is a `BadVariant` error. -/
def simplify_rational : Value → Except ValueError Value
  | .Rational numerator denominator =>
      let gcf := gcd_i128 numerator denominator
      .ok (.Rational (numerator.tdiv gcf) (denominator.tdiv gcf))
  | v => .error (.BadVariant v)

/-- Models the `.unwrap()` applied to `simplify_rational`'s result at every
call site in `src/value.rs`.  The error branch (a panic in Rust) is
unreachable there: the argument is always freshly built as a `Rational`. -/
def unwrap_value : Except ValueError Value → Value
  | .ok v => v
  | .error _ => .Undefined

/-- `impl Add for Value` (`src/value.rs` lines 117-132). -/
def Value.add : Value → Value → Value
  | .Rational self_num self_den, .Rational other_num other_den =>
      let common_den := lcm_i128 self_den other_den
      let self_num := self_num * (common_den.tdiv self_den)
      let other_num := other_num * (common_den.tdiv other_den)
      unwrap_value (simplify_rational (.Rational (self_num + other_num) common_den))
  | _, _ => .Undefined

/-- `impl Sub for Value` (`src/value.rs` lines 134-149). -/
def Value.sub : Value → Value → Value
  | .Rational self_num self_den, .Rational other_num other_den =>
      let common_den := lcm_i128 self_den other_den
      let self_num := self_num * (common_den.tdiv self_den)
      let other_num := other_num * (common_den.tdiv other_den)
      unwrap_value (simplify_rational (.Rational (self_num - other_num) common_den))
  | _, _ => .Undefined

/-- `impl Mul for Value` (`src/value.rs` lines 151-164). -/
def Value.mul : Value → Value → Value
  | .Rational self_num self_den, .Rational other_num other_den =>
      unwrap_value (simplify_rational (.Rational (self_num * other_num) (self_den * other_den)))
  | _, _ => .Undefined

/-- `impl Div for Value` (`src/value.rs` lines 166-179): multiply by the
swapped right operand, with no zero check. -/
def Value.div : Value → Value → Value
  | .Rational self_num self_den, .Rational other_num other_den =>
      unwrap_value (simplify_rational (.Rational (self_num * other_den) (self_den * other_num)))
  | _, _ => .Undefined

/-- `impl Neg for Value` (`src/value.rs` lines 181-193). -/
def Value.neg : Value → Value
  | .Rational numerator denominator =>
      unwrap_value (simplify_rational (.Rational (-numerator) denominator))
  | _ => .Undefined

/-- `Value::factorial` (`src/value.rs` lines 196-213): guard, then the loop
`for i in 2..=numerator { result *= i }` starting from `result = 1`.
`(List.range (n+1)).drop 2` is exactly the list `[2, ..., n]` the loop visits. -/
def Value.factorial : Value → Value
  | .Rational numerator denominator =>
      if numerator < 0 ∨ denominator ≠ 1 then .Undefined
      else
        .Rational (((List.range (numerator.toNat + 1)).drop 2).foldl
          (fun acc i => acc * Int.ofNat i) 1) denominator
  | _ => .Undefined

/-- `impl PartialEq for Value` (`src/value.rs` lines 216-225): cross-multiply
two rationals; any other combination is `false`. -/
def Value.eq : Value → Value → Bool
  | .Rational self_num self_den, .Rational other_num other_den =>
      self_num * other_den == other_num * self_den
  | _, _ => false

mutual

/-- `impl fmt::Display for Value` (`src/value.rs` lines 227-241). -/
def Value.to_string : Value → String
  | .Rational numerator denominator =>
      if denominator = 1 then toString numerator
      else toString numerator ++ "/" ++ toString denominator
  | .ExpressionV e => Expression.to_string e
  | .Undefined => "undefined"

/-- `impl fmt::Display for Expression` (`src/expression.rs` lines 120-139).
The `Multiplication` arm matches `(a, b)` in the source's order:
`(Value, Variable)`, `(Variable, Variable)`, `(Value, b)`, catch-all. -/
def Expression.to_string : Expression → String
  | .Value v => Value.to_string v
  | .Variable n => n
  | .Addition a b =>
      "(" ++ Expression.to_string a ++ " + " ++ Expression.to_string b ++ ")"
  | .Subtraction a b =>
      "(" ++ Expression.to_string a ++ " - " ++ Expression.to_string b ++ ")"
  | .Multiplication a b =>
      match a, b with
      | .Value av, .Variable bn => Value.to_string av ++ bn
      | .Variable an, .Variable bn => an ++ bn
      | .Value av, b => Value.to_string av ++ Expression.to_string b
      | a, b => "(" ++ Expression.to_string a ++ " * " ++ Expression.to_string b ++ ")"
  | .Division a b =>
      "(" ++ Expression.to_string a ++ " / " ++ Expression.to_string b ++ ")"
  | .Negation e => "-(" ++ Expression.to_string e ++ ")"
  | .Factorial e => "(" ++ Expression.to_string e ++ ")!"
  | .Equals a b =>
      "(" ++ Expression.to_string a ++ " = " ++ Expression.to_string b ++ ")"

end

/-- `EvaluationError` of `src/expression.rs`. -/
inductive EvaluationError where
  | CantEvaluateVariant

/-- `VariableMap` (`HashMap<String, Value>`), modelled by its lookup function:
keys are unique, order is irrelevant, `get` returns `none` for a missing key. -/
def VariableMap := String → Option Value

/-- The `Result<Value, EvaluationError>` returned by `Expression::evaluate`. -/
abbrev EvaluationResult := Except EvaluationError Value

/-- `Expression::simplified` (`src/expression.rs` lines 47-91): one-step,
post-order simplification.  Binary nodes fold two `Value` children with the
corresponding `Value` operation; `Negation`, `Factorial` and `Equals` only
rewrap their simplified children. -/
def Expression.simplified : Expression → Expression
  | .Value v => .Value v
  | .Variable v => .Variable v
  | .Addition a b =>
      let a := a.simplified
      let b := b.simplified
      match a, b with
      | .Value av, .Value bv => .Value (av.add bv)
      | a, b => .Addition a b
  | .Subtraction a b =>
      let a := a.simplified
      let b := b.simplified
      match a, b with
      | .Value av, .Value bv => .Value (av.sub bv)
      | a, b => .Subtraction a b
  | .Multiplication a b =>
      let a := a.simplified
      let b := b.simplified
      match a, b with
      | .Value av, .Value bv => .Value (av.mul bv)
      | a, b => .Multiplication a b
  | .Division a b =>
      let a := a.simplified
      let b := b.simplified
      match a, b with
      | .Value av, .Value bv => .Value (av.div bv)
      | a, b => .Division a b
  | .Negation e => .Negation e.simplified
  | .Factorial e => .Factorial e.simplified
  | .Equals a b => .Equals a.simplified b.simplified

/-- `Expression::evaluate` (`src/expression.rs` lines 100-117). -/
def Expression.evaluate : Expression → VariableMap → EvaluationResult
  | .Value v, _ => .ok v
  | .Variable n, m => .ok ((m n).getD .Undefined)
  | .Addition a b, m => do .ok (Value.add (← a.evaluate m) (← b.evaluate m))
  | .Subtraction a b, m => do .ok (Value.sub (← a.evaluate m) (← b.evaluate m))
  | .Multiplication a b, m => do .ok (Value.mul (← a.evaluate m) (← b.evaluate m))
  | .Division a b, m => do .ok (Value.div (← a.evaluate m) (← b.evaluate m))
  | .Negation e, m => do .ok (Value.neg (← e.evaluate m))
  | .Factorial e, m => do .ok (Value.factorial (← e.evaluate m))
  | .Equals _ _, _ => .error .CantEvaluateVariant

/-! ### Decimal-literal parsing (`impl FromStr for Value`, `src/value.rs` 67-105) -/

/-- Digit run for `str::parse::<i128>`: at least one character, all ASCII
digits, accumulated most-significant first. -/
def parse_digits_aux : List Char → Nat → Option Nat
  | [], acc => some acc
  | c :: cs, acc =>
      if c.isDigit then parse_digits_aux cs (acc * 10 + (c.toNat - 48)) else none

/-- Nonempty all-digit parse. -/
def parse_digits : List Char → Option Nat
  | [] => none
  | cs => parse_digits_aux cs 0

/-- `str::parse::<i128>`: an optional `+` or `-` sign followed by one or more
digits (the `i128` range plays no role in the unbounded model). -/
def parse_i128 : List Char → Option Int
  | '+' :: rest => (parse_digits rest).map Int.ofNat
  | '-' :: rest => (parse_digits rest).map (fun n => -(n : Int))
  | cs => (parse_digits cs).map Int.ofNat

/-- `str::split_once(sep)`: split at the first occurrence of `sep`. -/
def split_once : List Char → Char → Option (List Char × List Char)
  | [], _ => none
  | c :: rest, sep =>
      if c == sep then some ([], rest)
      else (split_once rest sep).map (fun p => (c :: p.1, p.2))

/-- Fuel-driven base-10 logarithm: `ilog10_aux fuel n` counts how often `n`
can be divided by 10 before dropping below 10.  For `n ≥ 1`, `fuel = n` always
suffices since the argument shrinks by a factor of 10 each step. -/
def ilog10_aux : Nat → Nat → Nat
  | 0, _ => 0
  | fuel + 1, n => if n < 10 then 0 else ilog10_aux fuel (n / 10) + 1

/-- `i128::checked_ilog10`: `none` for a non-positive argument, otherwise the
floor of the base-10 logarithm. -/
def checked_ilog10 (n : Int) : Option Nat :=
  if n ≤ 0 then none else some (ilog10_aux n.toNat n.toNat)

/-- `impl FromStr for Value` (`src/value.rs` lines 67-105): split at the
decimal point, parse both parts as `i128`, take `exponent` from
`checked_ilog10` of the numeric value of the decimal part, and build
`Rational(integer * 10^exponent + decimal, 10^exponent)`. -/
def Value.from_str (s : String) : Option Value := do
  let parts : List Char × Option (List Char) :=
    match split_once s.data '.' with
    | some (integer, decimal) => (integer, some decimal)
    | none => (s.data, none)
  let integer ← parse_i128 parts.1
  let decimal ←
    match parts.2 with
    | some decimal => parse_i128 decimal
    | none => pure 0
  let exponent := (checked_ilog10 decimal).getD 0
  let numerator := integer * 10 ^ exponent + decimal
  let denominator := (10 : Int) ^ exponent
  some (.Rational numerator denominator)

/-! ### The trait-object design (`src/value/rational.rs`, `src/value/undefined.rs`) -/

/-- The `Sign` enum of `src/value/rational.rs`. -/
inductive Sign where
  | Positive
  | Negative
deriving DecidableEq

/-- `Sign::opposite`. -/
def Sign.opposite : Sign → Sign
  | .Positive => .Negative
  | .Negative => .Positive

/-- `impl BitXor for Sign`. -/
def Sign.bitxor : Sign → Sign → Sign
  | .Positive, .Negative => .Negative
  | .Negative, .Positive => .Negative
  | _, _ => .Positive

/-- `RationalValue` of `src/value/rational.rs`: explicit sign, `BigUint`
numerator and denominator (modelled as `Nat`). -/
structure RationalValue where
  sign : Sign
  numerator : Nat
  denominator : Nat
deriving DecidableEq

/-- A `Box<dyn Value>` in the trait-object design: the only implementors are
`RationalValue` and `UndefinedValue`. -/
inductive DynValue where
  | rational (r : RationalValue)
  | undefined
deriving DecidableEq

/-- `RationalValue::simplified`: divide both magnitudes by their gcd. -/
def RationalValue.simplified (r : RationalValue) : RationalValue :=
  let g := Nat.gcd r.numerator r.denominator
  ⟨r.sign, r.numerator / g, r.denominator / g⟩

/-- `RationalValue::get_opposite`. -/
def RationalValue.get_opposite (r : RationalValue) : RationalValue :=
  ⟨r.sign.opposite, r.numerator, r.denominator⟩

/-- `RationalValue::get_reciprocal`: swap numerator and denominator, keep the
sign, with no zero check. -/
def RationalValue.get_reciprocal (r : RationalValue) : RationalValue :=
  ⟨r.sign, r.denominator, r.numerator⟩

/-- `RationalValue::mul` (`src/value/rational.rs` lines 173-183): multiply
magnitudes, xor signs.  Note there is no `.simplified()` on the result. -/
def RationalValue.mul (self : RationalValue) : DynValue → DynValue
  | .rational other =>
      .rational ⟨self.sign.bitxor other.sign,
        self.numerator * other.numerator, self.denominator * other.denominator⟩
  | .undefined => .undefined

/-- `RationalValue::div` (`src/value/rational.rs` lines 185-191): multiply by
the reciprocal of the right operand, with no zero check. -/
def RationalValue.div (self : RationalValue) : DynValue → DynValue
  | .rational other => self.mul (.rational other.get_reciprocal)
  | .undefined => .undefined

/-- `UndefinedValue::add` (`src/value/undefined.rs`): always `Undefined`. -/
def undefined_add (_ : DynValue) : DynValue := .undefined

/-- `UndefinedValue::sub`: always `Undefined`. -/
def undefined_sub (_ : DynValue) : DynValue := .undefined

/-- `UndefinedValue::mul`: always `Undefined`. -/
def undefined_mul (_ : DynValue) : DynValue := .undefined

/-- `UndefinedValue::div`: always `Undefined`. -/
def undefined_div (_ : DynValue) : DynValue := .undefined

/-- `str::trim_end_matches('0')`: drop every trailing `'0'`. -/
def trim_end_zeros (cs : List Char) : List Char :=
  (cs.reverse.dropWhile (fun c => c == '0')).reverse

/-- `BigUint::from_str`: an optional `+` sign followed by one or more digits. -/
def parse_biguint : List Char → Option Nat
  | '+' :: rest => parse_digits rest
  | cs => parse_digits cs

/-- The unsigned body shared by both branches of
`impl FromStr for RationalValue`: split at the decimal point if any,
concatenate the two digit runs, trim trailing zeros, and take the **length**
of the fractional part as the denominator. -/
def rational_value_from_chars (cs : List Char) (sign : Sign) : Option RationalValue :=
  match split_once cs '.' with
  | some (before, after) =>
      (parse_biguint (trim_end_zeros (before ++ after))).map
        (fun numerator => ⟨sign, numerator, after.length⟩)
  | none => (parse_biguint cs).map (fun numerator => ⟨sign, numerator, 1⟩)

/-- `impl FromStr for RationalValue` (`src/value/rational.rs` lines 222-250):
strip a leading `-` to fix the sign, then parse the unsigned body. -/
def RationalValue.from_str (s : String) : Option RationalValue :=
  match s.data with
  | '-' :: rest => rational_value_from_chars rest .Negative
  | cs => rational_value_from_chars cs .Positive

/-! ### Parser model (`src/parse.rs`) -/

/-- A rule-tagged primary node of the external parse tree, as consumed by
`parse_pairs`'s `map_primary` closure. -/
inductive PNode where
  | number (s : String)
  | var (n : String)
  | implicit_multiplication (ops : List PNode)
  | paren_expression (p : PNode)

/-- The `Rule::implicit_multiplication` arm of `map_primary`
(`src/parse.rs` lines 45-58), applied to the already-parsed operands: reverse
the operand list, start from its head (the last operand), and wrap
`Expression::Multiplication(next, acc)` around the accumulator for each
remaining reversed operand.  `none` models the `.unwrap()` panic on an empty
operand list. -/
def fold_implicit (es : List Expression) : Option Expression :=
  match es.reverse with
  | [] => none
  | e :: rest => some (rest.foldl (fun acc p => .Multiplication p acc) e)

mutual

/-- `map_primary` of `parse_pairs` (`src/parse.rs` lines 33-62): a `number`
leaf parses through `Value::from_str` (whose failure is an `.unwrap()` panic,
modelled by `none`), a `variable` leaf becomes `Expression::Variable`, a
parenthesised node recurses into its child, and `implicit_multiplication`
parses its operands and folds them with `fold_implicit`. -/
def parse_primary : PNode → Option Expression
  | .number s => (Value.from_str s).map Expression.Value
  | .var n => some (.Variable n)
  | .paren_expression p => parse_primary p
  | .implicit_multiplication ops => (parse_list ops).bind fold_implicit

/-- Parse each operand of an `implicit_multiplication` node in order. -/
def parse_list : List PNode → Option (List Expression)
  | [] => some []
  | p :: ps => (parse_primary p).bind fun e => (parse_list ps).map fun es => e :: es

end

/-! ### Auxiliary predicates and helpers used by the theorems -/

/-- Is this `Value` the `Rational` variant? -/
def is_rational : Value → Bool
  | .Rational _ _ => true
  | _ => false

/-- Canonical form (spec glossary): a rational whose numerator and denominator
share no common factor greater than one; non-rationals are unconstrained. -/
def is_canonical : Value → Prop
  | .Rational n d => Int.gcd n d = 1
  | _ => True

/-- Is this expression node a `Literal` (an `Expression::Value` node)? -/
def is_value_node : Expression → Bool
  | .Value _ => true
  | _ => false

/-- Is this expression node a `Variable`? -/
def is_variable_node : Expression → Bool
  | .Variable _ => true
  | _ => false

/-- Does the expression tree contain a `Negation` or `Factorial` node? -/
def contains_unary : Expression → Bool
  | .Value _ => false
  | .Variable _ => false
  | .Addition a b => contains_unary a || contains_unary b
  | .Subtraction a b => contains_unary a || contains_unary b
  | .Multiplication a b => contains_unary a || contains_unary b
  | .Division a b => contains_unary a || contains_unary b
  | .Negation _ => true
  | .Factorial _ => true
  | .Equals a b => contains_unary a || contains_unary b

/-- Apply `Expression::simplified` `n` times. -/
def simplify_iter : Nat → Expression → Expression
  | 0, t => t
  | n + 1, t => simplify_iter n t.simplified

/-- The right-nested multiplication chain `o1 * (o2 * (... * on))` described
by the spec for an `implicit_multiplication` node. -/
def mul_chain : Expression → List Expression → Expression
  | e, [] => e
  | e, f :: fs => .Multiplication e (mul_chain f fs)

/-! ### Helper lemmas -/

/-- `simplify_rational` followed by the call-site `.unwrap()` produces a
rational in canonical form whenever the incoming denominator is nonzero. -/
theorem canonical_simplify {n d : Int} (hd : d ≠ 0) :
    is_canonical (unwrap_value (simplify_rational (.Rational n d))) := by
  have hg : 0 < Int.gcd n d :=
    Nat.pos_of_ne_zero fun h => hd (Int.gcd_eq_zero_iff.mp h).2
  show Int.gcd (Int.tdiv n (gcd_i128 n d)) (Int.tdiv d (gcd_i128 n d)) = 1
  rw [gcd_i128, Int.tdiv_eq_ediv_of_dvd Int.gcd_dvd_left,
    Int.tdiv_eq_ediv_of_dvd Int.gcd_dvd_right]
  exact Int.gcd_div_gcd_div_gcd hg

/-- The ascending loop `for i in 2..=n { result *= i }` computes the product
of the integers from 2 to `n`. -/
theorem fact_loop_eq_prod (n : Nat) :
    ((List.range (n + 1)).drop 2).foldl (fun acc i => acc * Int.ofNat i) 1
      = ∏ i ∈ Finset.Icc 2 n, (i : Int) := by
  induction n with
  | zero =>
      rw [Finset.Icc_eq_empty (by omega)]
      rfl
  | succ m ih =>
      by_cases hm : 1 ≤ m
      · rw [List.range_succ,
          List.drop_append_of_le_length (by rw [List.length_range]; omega),
          List.foldl_append, ih, Finset.prod_Icc_succ_top (by omega)]
        rfl
      · have hm0 : m = 0 := by omega
        subst hm0
        rw [Finset.Icc_eq_empty (by omega)]
        rfl

/-- A tree that contains a `Negation` or `Factorial` node is not itself a
literal node. -/
theorem contains_unary_not_value (t : Expression) (h : contains_unary t = true) :
    is_value_node t = false := by
  cases t <;> simp_all [contains_unary, is_value_node]

/-- One simplification step preserves the presence of a `Negation` or
`Factorial` node and never turns such a tree into a literal: the unary nodes
rewrap, and a binary node cannot fold a child that is not a literal. -/
theorem simplified_preserves_unary (t : Expression) (h : contains_unary t = true) :
    contains_unary t.simplified = true ∧ is_value_node t.simplified = false := by
  match t with
  | .Value _ => simp [contains_unary] at h
  | .Variable _ => simp [contains_unary] at h
  | .Addition a b =>
      rcases (by simpa [contains_unary] using h :
          contains_unary a = true ∨ contains_unary b = true) with hu | hu <;>
        obtain ⟨h1, h2⟩ := simplified_preserves_unary _ hu <;>
        · simp only [Expression.simplified]
          split
          · next _ _ ha hb =>
              first
              | (rw [ha] at h2; simp [is_value_node] at h2)
              | (rw [hb] at h2; simp [is_value_node] at h2)
          · simp [contains_unary, is_value_node, h1]
  | .Subtraction a b =>
      rcases (by simpa [contains_unary] using h :
          contains_unary a = true ∨ contains_unary b = true) with hu | hu <;>
        obtain ⟨h1, h2⟩ := simplified_preserves_unary _ hu <;>
        · simp only [Expression.simplified]
          split
          · next _ _ ha hb =>
              first
              | (rw [ha] at h2; simp [is_value_node] at h2)
              | (rw [hb] at h2; simp [is_value_node] at h2)
          · simp [contains_unary, is_value_node, h1]
  | .Multiplication a b =>
      rcases (by simpa [contains_unary] using h :
          contains_unary a = true ∨ contains_unary b = true) with hu | hu <;>
        obtain ⟨h1, h2⟩ := simplified_preserves_unary _ hu <;>
        · simp only [Expression.simplified]
          split
          · next _ _ ha hb =>
              first
              | (rw [ha] at h2; simp [is_value_node] at h2)
              | (rw [hb] at h2; simp [is_value_node] at h2)
          · simp [contains_unary, is_value_node, h1]
  | .Division a b =>
      rcases (by simpa [contains_unary] using h :
          contains_unary a = true ∨ contains_unary b = true) with hu | hu <;>
        obtain ⟨h1, h2⟩ := simplified_preserves_unary _ hu <;>
        · simp only [Expression.simplified]
          split
          · next _ _ ha hb =>
              first
              | (rw [ha] at h2; simp [is_value_node] at h2)
              | (rw [hb] at h2; simp [is_value_node] at h2)
          · simp [contains_unary, is_value_node, h1]
  | .Negation e => exact ⟨rfl, rfl⟩
  | .Factorial e => exact ⟨rfl, rfl⟩
  | .Equals a b =>
      rcases (by simpa [contains_unary] using h :
          contains_unary a = true ∨ contains_unary b = true) with hu | hu <;>
        obtain ⟨h1, _⟩ := simplified_preserves_unary _ hu <;>
        simp [Expression.simplified, contains_unary, is_value_node, h1]

/-- The source's reverse-then-accumulate loop over the operands of an
`implicit_multiplication` node builds exactly the right-nested chain
`o1 * (o2 * (... * on))`. -/
theorem fold_implicit_eq_mul_chain (e : Expression) (es : List Expression) :
    fold_implicit (e :: es) = some (mul_chain e es) := by
  induction es generalizing e with
  | nil => rfl
  | cons f fs ih =>
      obtain ⟨r, rs, hr⟩ := List.exists_cons_of_ne_nil
        (show (f :: fs).reverse ≠ [] by simp)
      have h1 : fold_implicit (e :: f :: fs)
          = some ((rs ++ [e]).foldl (fun acc p => .Multiplication p acc) r) := by
        unfold fold_implicit
        rw [List.reverse_cons, hr, List.cons_append]
      have h2 : fold_implicit (f :: fs)
          = some (rs.foldl (fun acc p => .Multiplication p acc) r) := by
        unfold fold_implicit
        rw [hr]
      have h3 : rs.foldl (fun acc p => Expression.Multiplication p acc) r
          = mul_chain f fs := by
        have h4 := ih (e := f)
        rw [h2] at h4
        exact Option.some.inj h4
      rw [h1, List.foldl_append, h3]
      rfl

/-! ### Claim theorems -/

/-- C1: decimal-literal parsing does not follow the literal-digit-count rule.
`Value::from_str` derives the exponent from `checked_ilog10` of the numeric
value of the fractional digits, so `"1.05"` parses to `Rational(6, 1)`;
`RationalValue::from_str` uses the digit count itself (not `10 ^ count`) as
the denominator, so `"1.05"` parses to `105/2`.  Neither yields the
numerator 105 over denominator 100 that the claim requires. -/
theorem c1_decimal_parsing_bug :
    Value.from_str "1.05" = some (.Rational 6 1) ∧
    RationalValue.from_str "1.05" = some ⟨.Positive, 105, 2⟩ ∧
    Value.Rational 6 1 ≠ Value.Rational 105 100 ∧
    (⟨.Positive, 105, 2⟩ : RationalValue) ≠ ⟨.Positive, 105, 100⟩ := by
  refine ⟨rfl, rfl, ?_, by decide⟩
  intro h
  injection h with h1 _
  exact absurd h1 (by decide)

/-- C2: division by a rational with numerator zero is not guarded.  In the
enum design `Rational(1,1) / Rational(0,1)` evaluates to the malformed
zero-denominator fraction `Rational(1, 0)`, not `Undefined`; the trait design
multiplies by the unchecked reciprocal and produces `1/0` as well. -/
theorem c2_div_zero_numerator_bug :
    Value.div (.Rational 1 1) (.Rational 0 1) = .Rational 1 0 ∧
    RationalValue.div ⟨.Positive, 1, 1⟩ (.rational ⟨.Positive, 0, 1⟩)
      = .rational ⟨.Positive, 1, 0⟩ ∧
    Value.Rational 1 0 ≠ .Undefined :=
  ⟨rfl, rfl, fun h => Value.noConfusion h⟩

/-- C3 (counterexample): `RationalValue::mul` omits canonicalization, so the
claim as stated fails: multiplying `6/4` (nonzero denominator) by `1/1`
returns `6/4`, whose numerator and denominator share the factor 2. -/
theorem c3_counterexample :
    RationalValue.mul ⟨.Positive, 6, 4⟩ (.rational ⟨.Positive, 1, 1⟩)
      = .rational ⟨.Positive, 6, 4⟩ ∧ Nat.gcd 6 4 ≠ 1 :=
  ⟨rfl, by decide⟩

/-- C3 (amended): in the enum design of `src/value.rs`, every
arithmetic-producing operation — add, sub, mul, div, negate, factorial —
returns a canonical rational whenever it returns a rational, given nonzero
operand denominators (and, for div, a nonzero right numerator). -/
theorem c3_canonical_ops :
    (∀ n1 d1 n2 d2 : Int, d1 ≠ 0 → d2 ≠ 0 →
      is_canonical (Value.add (.Rational n1 d1) (.Rational n2 d2))) ∧
    (∀ n1 d1 n2 d2 : Int, d1 ≠ 0 → d2 ≠ 0 →
      is_canonical (Value.sub (.Rational n1 d1) (.Rational n2 d2))) ∧
    (∀ n1 d1 n2 d2 : Int, d1 ≠ 0 → d2 ≠ 0 →
      is_canonical (Value.mul (.Rational n1 d1) (.Rational n2 d2))) ∧
    (∀ n1 d1 n2 d2 : Int, d1 ≠ 0 → n2 ≠ 0 →
      is_canonical (Value.div (.Rational n1 d1) (.Rational n2 d2))) ∧
    (∀ n d : Int, d ≠ 0 → is_canonical (Value.neg (.Rational n d))) ∧
    (∀ v : Value, is_canonical (Value.factorial v)) := by
  refine ⟨?_, ?_, ?_, ?_, ?_, ?_⟩
  · intro n1 d1 n2 d2 h1 h2
    exact canonical_simplify (by unfold lcm_i128; exact_mod_cast Int.lcm_ne_zero h1 h2)
  · intro n1 d1 n2 d2 h1 h2
    exact canonical_simplify (by unfold lcm_i128; exact_mod_cast Int.lcm_ne_zero h1 h2)
  · intro n1 d1 n2 d2 h1 h2
    exact canonical_simplify (mul_ne_zero h1 h2)
  · intro n1 d1 n2 d2 h1 h2
    exact canonical_simplify (mul_ne_zero h1 h2)
  · intro n d h
    exact canonical_simplify h
  · intro v
    match v with
    | .Rational n d =>
        simp only [Value.factorial]
        split
        · trivial
        · next hcond =>
            have hd : d = 1 := by
              rcases not_or.mp hcond with ⟨_, hd⟩
              exact not_not.mp hd
            subst hd
            show Int.gcd _ 1 = 1
            simp [Int.gcd]
    | .ExpressionV _ => trivial
    | .Undefined => trivial

/-- C3 (witness): adding `1/2` and `1/3` yields a canonical rational. -/
theorem c3_canonical_ops_witness :
    is_canonical (Value.add (.Rational 1 2) (.Rational 1 3)) :=
  c3_canonical_ops.1 1 2 1 3 (by decide) (by decide)

/-- C4: `Undefined` (and any non-`Rational` operand) is absorbing for add,
sub, mul and div in both designs, silently and unconditionally. -/
theorem c4_undefined_absorbing :
    (∀ x y : Value, is_rational x = false ∨ is_rational y = false →
      Value.add x y = .Undefined ∧ Value.sub x y = .Undefined ∧
      Value.mul x y = .Undefined ∧ Value.div x y = .Undefined) ∧
    (∀ o : DynValue, undefined_add o = .undefined ∧ undefined_sub o = .undefined ∧
      undefined_mul o = .undefined ∧ undefined_div o = .undefined) ∧
    (∀ r : RationalValue, r.mul .undefined = .undefined ∧ r.div .undefined = .undefined) := by
  refine ⟨?_, fun o => ⟨rfl, rfl, rfl, rfl⟩, fun r => ⟨rfl, rfl⟩⟩
  intro x y h
  cases x <;> cases y <;>
    simp_all [is_rational, Value.add, Value.sub, Value.mul, Value.div]

/-- C4 (witness): `Undefined` on the left absorbs a rational operand. -/
theorem c4_undefined_absorbing_witness :
    Value.add .Undefined (.Rational 1 1) = .Undefined ∧
    Value.sub .Undefined (.Rational 1 1) = .Undefined ∧
    Value.mul .Undefined (.Rational 1 1) = .Undefined ∧
    Value.div .Undefined (.Rational 1 1) = .Undefined :=
  c4_undefined_absorbing.1 .Undefined (.Rational 1 1) (Or.inl rfl)

/-- C5: one-step simplification rewraps `Negation` and `Factorial` around the
simplified inner expression without ever folding to a literal, and repeated
simplification of any tree containing such a node never reaches a single
literal. -/
theorem c5_unary_never_folds :
    (∀ e : Expression, (Expression.Negation e).simplified = .Negation e.simplified) ∧
    (∀ e : Expression, (Expression.Factorial e).simplified = .Factorial e.simplified) ∧
    (∀ t : Expression, contains_unary t = true →
      ∀ n : Nat, is_value_node (simplify_iter n t) = false) := by
  refine ⟨fun e => rfl, fun e => rfl, ?_⟩
  intro t ht n
  induction n generalizing t with
  | zero => exact contains_unary_not_value t ht
  | succ m ih => exact ih t.simplified (simplified_preserves_unary t ht).1

/-- C5 (witness): simplifying a negation of a literal three times still does
not produce a literal. -/
theorem c5_unary_never_folds_witness :
    is_value_node (simplify_iter 3 (.Negation (.Value (.Rational 2 1)))) = false :=
  c5_unary_never_folds.2.2 (.Negation (.Value (.Rational 2 1))) rfl 3

/-- C6: `Value::factorial` returns the product of the integers from 2 up to
the numerator, over denominator one, exactly for rationals with denominator
exactly one and non-negative numerator, and `Undefined` for every other
input; in particular `5! = 120/1` and `0! = 1/1`. -/
theorem c6_factorial_domain :
    (∀ n d : Int, Value.factorial (.Rational n d) =
      if 0 ≤ n ∧ d = 1 then .Rational (∏ i ∈ Finset.Icc 2 n.toNat, (i : Int)) 1
      else .Undefined) ∧
    (∀ e : Expression, Value.factorial (.ExpressionV e) = .Undefined) ∧
    Value.factorial .Undefined = .Undefined ∧
    Value.factorial (.Rational 5 1) = .Rational 120 1 ∧
    Value.factorial (.Rational 0 1) = .Rational 1 1 ∧
    Value.factorial (.Rational (-1) 1) = .Undefined ∧
    Value.factorial (.Rational 1 2) = .Undefined := by
  refine ⟨?_, fun e => rfl, rfl, rfl, rfl, rfl, rfl⟩
  intro n d
  by_cases h : 0 ≤ n ∧ d = 1
  · obtain ⟨hn, hd⟩ := h
    subst hd
    rw [if_pos ⟨hn, rfl⟩]
    simp only [Value.factorial]
    rw [if_neg (by omega), fact_loop_eq_prod]
  · rw [if_neg h]
    simp only [Value.factorial]
    rw [if_pos ?_]
    rcases not_and_or.mp h with h | h
    · exact Or.inl (by omega)
    · exact Or.inr h

/-- C7: evaluating an `Equals` node always fails with `CantEvaluateVariant`,
for every pair of subexpressions and every variable binding. -/
theorem c7_equals_cant_evaluate :
    ∀ (l r : Expression) (m : VariableMap),
      (Expression.Equals l r).evaluate m = .error .CantEvaluateVariant :=
  fun _ _ _ => rfl

/-- C8: an `implicit_multiplication` node with parsed operands `o1..on` folds
into the right-nested chain `o1 * (o2 * (... * on))` preserving the original
order; parsing `"2xy"` and evaluating with `x = 3`, `y = 4` yields
`Rational(24, 1)`. -/
theorem c8_implicit_multiplication :
    (∀ (ops : List PNode) (es : List Expression), parse_list ops = some es →
      parse_primary (.implicit_multiplication ops) = fold_implicit es) ∧
    (∀ (e : Expression) (es : List Expression),
      fold_implicit (e :: es) = some (mul_chain e es)) ∧
    parse_primary (.implicit_multiplication [.number "2", .var "x", .var "y"])
      = some (.Multiplication (.Value (.Rational 2 1))
          (.Multiplication (.Variable "x") (.Variable "y"))) ∧
    Expression.evaluate
        (.Multiplication (.Value (.Rational 2 1))
          (.Multiplication (.Variable "x") (.Variable "y")))
        (fun s => if s = "x" then some (.Rational 3 1)
          else if s = "y" then some (.Rational 4 1) else none)
      = .ok (.Rational 24 1) := by
  refine ⟨?_, fold_implicit_eq_mul_chain, rfl, rfl⟩
  intro ops es h
  rw [show parse_primary (.implicit_multiplication ops)
      = (parse_list ops).bind fold_implicit from rfl, h]
  rfl

/-- C8 (witness): the chain law applied to the concrete operand list of
`"xy"`. -/
theorem c8_implicit_multiplication_witness :
    parse_primary (.implicit_multiplication [.var "x", .var "y"])
      = fold_implicit [.Variable "x", .Variable "y"] :=
  c8_implicit_multiplication.1 [.var "x", .var "y"]
    [.Variable "x", .Variable "y"] rfl

/-- C9: value equality compares cross-products of two rationals (so `6/4`
equals `3/2` without canonicalization), is `false` whenever either side is
not a rational, and in particular `Undefined` does not equal `Undefined`. -/
theorem c9_partial_eq :
    (∀ a b c d : Int, (Value.eq (.Rational a b) (.Rational c d) = true) ↔ a * d = c * b) ∧
    Value.eq (.Rational 6 4) (.Rational 3 2) = true ∧
    (∀ x y : Value, is_rational x = false ∨ is_rational y = false →
      Value.eq x y = false) ∧
    Value.eq .Undefined .Undefined = false := by
  refine ⟨?_, rfl, ?_, rfl⟩
  · intro a b c d
    exact beq_iff_eq
  · intro x y h
    cases x <;> cases y <;> simp_all [is_rational, Value.eq]

/-- C9 (witness): a rational never equals `Undefined`. -/
theorem c9_partial_eq_witness :
    Value.eq .Undefined (.Rational 1 1) = false :=
  c9_partial_eq.2.2.1 .Undefined (.Rational 1 1) (Or.inl rfl)

/-- C10 (counterexample): `Mul(Variable "x", Mul(Variable "y", Variable "z"))`
has a right operand that is an elided-multiplication term (`yz`), so the claim
requires the juxtaposed form `xyz`; the renderer instead produces
`"(x * yz)"`. -/
theorem c10_counterexample :
    Expression.to_string
        (.Multiplication (.Variable "x")
          (.Multiplication (.Variable "y") (.Variable "z")))
      = "(x * yz)" ∧ ("(x * yz)" : String) ≠ "xyz" :=
  ⟨rfl, by decide⟩

/-- C10 (amended): the renderer elides the operator and parentheses of a
multiplication exactly when the left operand is a literal (whatever the right
operand is), or both operands are variables; it renders `"(L * R)"` in every
other case. -/
theorem c10_multiplication_rendering :
    ∀ a b : Expression,
      (Expression.Multiplication a b).to_string =
        if is_value_node a || (is_variable_node a && is_variable_node b)
        then a.to_string ++ b.to_string
        else "(" ++ a.to_string ++ " * " ++ b.to_string ++ ")" := by
  intro a b
  cases a <;> cases b <;> rfl
